import Mathlib

/-!
Verification development for `export_dashboards.py`: a shallow embedding of
the fetch-filter-normalize-export pipeline of the dashboard export tool,
together with theorems about the normalizer, the transport client, the
exporter and the three orchestrator modes.

Python dictionaries are modelled as insertion-ordered association lists
with string keys (`PyDict`); JSON-like values are the inductive `Value`.
Network responses and per-item export outcomes are supplied as explicit
oracle arguments, making the orchestrator loops pure functions.
-/

namespace DashboardExport

/-- JSON-like values held in dashboard records. Scalar constructors mirror
the Python values `None`, booleans, integers and strings; `varr` and `vobj`
model JSON arrays and objects. -/
inductive Value where
  | vnull : Value
  | vbool : Bool → Value
  | vint : Int → Value
  | vstr : String → Value
  | varr : List Value → Value
  | vobj : List (String × Value) → Value

/-- A Python dict with string keys: an insertion-ordered association list.
Well-formed dicts have pairwise distinct keys. -/
abbrev PyDict := List (String × Value)

/-- Model of Python `d.get(k)`: the value bound to the first occurrence of
key `k`, or `none` when `k` is absent. -/
def dictGet (d : PyDict) (k : String) : Option Value :=
  match d with
  | [] => none
  | (k', v) :: rest => if k' = k then some v else dictGet rest k

/-- Model of Python `d.get(k, dflt)`. -/
def dictGetD (d : PyDict) (k : String) (dflt : Value) : Value :=
  (dictGet d k).getD dflt

/-- Model of Python `d[k] = v`: replace the value in place when `k` is
present (keeping its position), otherwise append the new binding. -/
def dictSet (d : PyDict) (k : String) (v : Value) : PyDict :=
  match d with
  | [] => [(k, v)]
  | (k', v') :: rest => if k' = k then (k, v) :: rest else (k', v') :: dictSet rest k v

/-- Model of Python `d.pop(k)` restricted to its effect on the dict:
remove the binding of `k`. -/
def dictPop (d : PyDict) (k : String) : PyDict :=
  match d with
  | [] => []
  | (k', v') :: rest => if k' = k then rest else (k', v') :: dictPop rest k

/-- Model of Python `d.update(other)`: assign each binding of `other` into
`d` in order. -/
def dictUpdate (d other : PyDict) : PyDict :=
  other.foldl (fun acc kv => dictSet acc kv.1 kv.2) d

/-- The keys of a dict in insertion order. -/
def dictKeys (d : PyDict) : List String :=
  d.map Prod.fst

/-- Python truthiness of a value: `None`, `False`, `0`, the empty string
and empty containers are falsy. -/
def pyTruthy : Value → Bool
  | .vnull => false
  | .vbool b => b
  | .vint n => n != 0
  | .vstr s => s != ""
  | .varr l => !l.isEmpty
  | .vobj l => !l.isEmpty

/-- Python truthiness of the result of `d.get(k)`: `None` (absent key) is
falsy. -/
def pyTruthyOpt : Option Value → Bool
  | none => false
  | some v => pyTruthy v

/-- The fields excluded from export (`exclude_fields` in
`export_dashboard_to_json`). -/
def exclude_fields : List String :=
  ["id", "created", "modified", "last_visited", "favorite",
   "is_homepage", "is_default_home", "system"]

/-- The preferred field order for the output (`field_order` in
`export_dashboard_to_json`). -/
def field_order : List String :=
  ["enabled", "permissions", "queries", "name", "slug", "sections",
   "visible", "controls", "description", "labels"]

/-- The dict comprehension building `export_data`: all fields of the
dashboard except the excluded ones, in their original order. -/
def buildExportData (d : PyDict) : PyDict :=
  d.filter (fun kv => !exclude_fields.contains kv.1)

/-- One iteration of the reordering loop: state is
(ordered_data, export_data); if the field is present in `export_data` it
is popped and appended to `ordered_data`. -/
def reorderStep (st : PyDict × PyDict) (field : String) : PyDict × PyDict :=
  match dictGet st.2 field with
  | some v => (dictSet st.1 field v, dictPop st.2 field)
  | none => st

/-- The field-normalization performed by `export_dashboard_to_json`
(lines 171-194): drop the excluded fields, emit the preferred fields
first in their fixed order, then append the remaining fields via
`ordered_data.update(export_data)`. -/
def normalize (dashboard : PyDict) : PyDict :=
  let export_data := buildExportData dashboard
  let st := field_order.foldl reorderStep ([], export_data)
  dictUpdate st.1 st.2

example :
    normalize
      [("id", .vint 7), ("name", .vstr "A"), ("custom", .vstr "x"),
       ("enabled", .vbool true), ("system", .vbool false)] =
      [("enabled", .vbool true), ("name", .vstr "A"), ("custom", .vstr "x")] := rfl

/-- A single-quote character, used by the Python `repr` of strings. -/
def squote : String := String.singleton (Char.ofNat 39)

/-- Model of Python `repr` on JSON-like values (string escaping inside
`repr` is not reproduced; no dashboard field exercised by the pipeline
reaches that case). -/
def pyRepr : Value → String
  | .vnull => "None"
  | .vbool b => if b then "True" else "False"
  | .vint n => toString n
  | .vstr s => squote ++ s ++ squote
  | .varr l => "[" ++ String.intercalate ", " (l.attach.map (fun e => pyRepr e.1)) ++ "]"
  | .vobj l =>
      "\x7b" ++
        String.intercalate ", "
          (l.attach.map (fun kv => squote ++ kv.1.1 ++ squote ++ ": " ++ pyRepr kv.1.2)) ++
      "\x7d"
decreasing_by
  · have := List.sizeOf_lt_of_mem e.2
    simp at this ⊢
    omega
  · have h1 := List.sizeOf_lt_of_mem kv.2
    obtain ⟨⟨k, v⟩, hkv⟩ := kv
    simp at h1 ⊢
    omega

/-- Model of Python `str` as used by f-string interpolation: strings are
inserted verbatim, every other value via its `repr`-like rendering. -/
def valueFStr : Value → String
  | .vstr s => s
  | v => pyRepr v

/-- A wall-clock instant as used by `datetime.now()` for the filename
timestamp. -/
structure Timestamp where
  year : Nat
  month : Nat
  day : Nat
  hour : Nat
  minute : Nat
  second : Nat

/-- Zero-pad the decimal rendering of a number to a given width, as the
`strftime` numeric directives do. -/
def padNum (width : Nat) (n : Nat) : String :=
  let s := toString n
  String.mk (List.replicate (width - s.length) '0') ++ s

/-- Model of `datetime.strftime("%Y-%m-%dT%H-%M-%S")`. -/
def strftimeExport (t : Timestamp) : String :=
  padNum 4 t.year ++ "-" ++ padNum 2 t.month ++ "-" ++ padNum 2 t.day ++ "T" ++
    padNum 2 t.hour ++ "-" ++ padNum 2 t.minute ++ "-" ++ padNum 2 t.second

/-- The output filename built by `export_dashboard_to_json`:
the dashboard is queried with `dashboard.get(..., ...)` for its slug with
default string literal `unknown`, and the name is the f-string
interpolation of the timestamp, the slug and the `.json` suffix. -/
def exportFilename (dashboard : PyDict) (now : Timestamp) : String :=
  let slug := dictGetD dashboard "slug" (.vstr "unknown")
  strftimeExport now ++ "-" ++ valueFStr slug ++ ".json"

example : strftimeExport ⟨2025, 1, 2, 3, 4, 5⟩ = "2025-01-02T03-04-05" := rfl

/-- The local directory tree the exporter writes into: a mapping from file
path to the record persisted there (file content is modelled as the
normalized record it serializes). -/
abbrev FileSystem := List (String × PyDict)

/-- Look up the content of a path. -/
def fsLookup (fs : FileSystem) (path : String) : Option PyDict :=
  match fs with
  | [] => none
  | (p, c) :: rest => if p = path then some c else fsLookup rest path

/-- Model of `open(path, mode_w)` followed by a full write: creates the
file, or truncates and replaces an existing file at the same path. -/
def fsWrite (fs : FileSystem) (path : String) (content : PyDict) : FileSystem :=
  match fs with
  | [] => [(path, content)]
  | (p, c) :: rest =>
      if p = path then (path, content) :: rest else (p, c) :: fsWrite rest path content

/-- Whether a path string ends in the separator character. -/
def endsWithSep (s : String) : Bool :=
  match s.data.getLast? with
  | some c => c = '/'
  | none => false

/-- Model of `os.path.join` on the shapes the tool produces (a directory
and a plain filename). -/
def osPathJoin (dir name : String) : String :=
  if dir = "" || endsWithSep dir then dir ++ name else dir ++ "/" ++ name

/-- Shallow embedding of `export_dashboard_to_json`: compute the filename
from the slug and the current instant, normalize the record, and write it
to the joined path. The write of the model filesystem always succeeds, so
the function returns the state after a successful call together with the
`True` result of the source function. -/
def export_dashboard_to_json (fs : FileSystem) (dashboard : PyDict)
    (output_dir : String) (now : Timestamp) : FileSystem × Bool :=
  let filename := exportFilename dashboard now
  let filepath := osPathJoin output_dir filename
  let export_data := normalize dashboard
  (fsWrite fs filepath export_data, true)

/-- The decoded body of a list-endpoint response: the `.json()` call either
raises a decode error, yields a JSON array of summary objects, or yields
valid JSON of some other shape (the `isinstance(data, list)` check). -/
inductive ListBody where
  | undecodable : ListBody
  | jsonList : List PyDict → ListBody
  | jsonNonList : ListBody

/-- Outcome of the `requests.get` call against the list endpoint: either
the request itself raises (connection failure, timeout), or a response
with a status code and a body arrives. -/
inductive ApiResponse where
  | netFail : ApiResponse
  | reply : Nat → ListBody → ApiResponse

/-- The name-filter membership test `d.get(name_key) in dashboard_names`:
the summary name must be a string equal to a member of the filter list
(exact match, no case folding); an absent name yields `None`, which never
equals a string. -/
def nameMatches (names : List String) (d : PyDict) : Bool :=
  match dictGet d "name" with
  | some (.vstr s) => names.contains s
  | _ => false

/-- Shallow embedding of `fetch_dashboards`: classify the response
(401/403 explicitly, `raise_for_status` for the other 4xx/5xx, decode
errors, non-list bodies) and apply the optional name filter. The filter
branch runs only when `dashboard_names` is truthy, i.e. provided and
non-empty. Returns `none` exactly where the source returns `None`. -/
def fetch_dashboards (resp : ApiResponse)
    (dashboard_names : Option (List String)) : Option (List PyDict) :=
  match resp with
  | .netFail => none
  | .reply status body =>
      if status = 401 then none
      else if status = 403 then none
      else if 400 ≤ status ∧ status < 600 then none
      else
        match body with
        | .undecodable => none
        | .jsonNonList => none
        | .jsonList data =>
            match dashboard_names with
            | some names =>
                if names.isEmpty then some data
                else some (data.filter (nameMatches names))
            | none => some data

/-- Exit code of list mode (`--list-dashboards` in `main`): 1 when the
fetch failed, 0 when it returned an empty list (warning only), 0 after
rendering the table otherwise. -/
def listModeExit (resp : ApiResponse) : Nat :=
  match fetch_dashboards resp none with
  | none => 1
  | some dashboards => if dashboards.isEmpty then 0 else 0

/-- The per-run counters and the observable interaction trace of an export
loop: how many items succeeded and failed, which slugs were sent to the
detail endpoint, which records were passed to `export_dashboard_to_json`,
and which of those were written out successfully. -/
structure RunAcc where
  success : Nat
  failure : Nat
  fetched : List String
  exportCalls : List PyDict
  written : List PyDict

/-- The initial counters of an export loop. -/
def RunAcc.init : RunAcc := ⟨0, 0, [], [], []⟩

/-- One iteration of the selective-export loop of `main` (`--dashboard`):
fetch the slug; on failure count it and continue; on success hand the
record to the exporter and count its outcome. `fetch` is the oracle for
`fetch_dashboard_by_slug` (`none` models a 401/403/404/transport/decode
failure) and `exp` the oracle for the exporter result. -/
def selectiveStep (fetch : String → Option PyDict) (exp : PyDict → Bool)
    (acc : RunAcc) (slug : String) : RunAcc :=
  match fetch slug with
  | none =>
      { acc with failure := acc.failure + 1, fetched := acc.fetched ++ [slug] }
  | some dashboard =>
      if exp dashboard then
        { acc with success := acc.success + 1, fetched := acc.fetched ++ [slug],
                   exportCalls := acc.exportCalls ++ [dashboard],
                   written := acc.written ++ [dashboard] }
      else
        { acc with failure := acc.failure + 1, fetched := acc.fetched ++ [slug],
                   exportCalls := acc.exportCalls ++ [dashboard] }

/-- The whole selective-export loop over the ordered slug list. -/
def selectiveRun (fetch : String → Option PyDict) (exp : PyDict → Bool)
    (slugs : List String) : RunAcc :=
  slugs.foldl (selectiveStep fetch exp) RunAcc.init

/-- Exit code of selective export mode: `sys.exit(1)` when any failure was
counted, `sys.exit(0)` otherwise. -/
def selectiveModeExit (fetch : String → Option PyDict) (exp : PyDict → Bool)
    (slugs : List String) : Nat :=
  if 0 < (selectiveRun fetch exp slugs).failure then 1 else 0

/-- The bulk-mode predicate selecting custom dashboards:
`not d.get(system_key, False)`. -/
def isCustom (d : PyDict) : Bool :=
  !pyTruthy (dictGetD d "system" (.vbool false))

/-- The slug guard of the bulk loop: `slug = d.get(slug_key)` followed by
`if not slug`. -/
def slugOk (d : PyDict) : Bool :=
  pyTruthyOpt (dictGet d "slug")

/-- The slug string interpolated into the detail-endpoint URL. -/
def slugStr (d : PyDict) : String :=
  valueFStr ((dictGet d "slug").getD .vnull)

/-- One iteration of the bulk-export loop of `main`: read the slug; a
falsy slug is a failure with no network call; otherwise fetch the full
detail and, on success, hand it to the exporter. -/
def bulkStep (fetch : String → Option PyDict) (exp : PyDict → Bool)
    (acc : RunAcc) (dashboard : PyDict) : RunAcc :=
  if slugOk dashboard then
    match fetch (slugStr dashboard) with
    | none =>
        { acc with failure := acc.failure + 1,
                   fetched := acc.fetched ++ [slugStr dashboard] }
    | some full =>
        if exp full then
          { acc with success := acc.success + 1,
                     fetched := acc.fetched ++ [slugStr dashboard],
                     exportCalls := acc.exportCalls ++ [full],
                     written := acc.written ++ [full] }
        else
          { acc with failure := acc.failure + 1,
                     fetched := acc.fetched ++ [slugStr dashboard],
                     exportCalls := acc.exportCalls ++ [full] }
  else
    { acc with failure := acc.failure + 1 }

/-- The bulk-export loop of `main` after a successful list fetch: filter
the summaries to custom (falsy `system`) dashboards and process each. -/
def bulkRun (fetch : String → Option PyDict) (exp : PyDict → Bool)
    (summaries : List PyDict) : RunAcc :=
  let custom_dashboards := summaries.filter isCustom
  custom_dashboards.foldl (bulkStep fetch exp) RunAcc.init

/-!
Operational model of the dict-building statements of
`export_dashboard_to_json`, used to show that the input dashboard object
is never mutated. Dict objects live in a heap addressed by references;
each Python statement reads, allocates or writes whole dict cells.
-/

/-- A reference to a dict object. -/
abbrev Ref := Nat

/-- The object heap: cell `i` holds the current state of dict object `i`. -/
abbrev Heap := List PyDict

/-- Read the dict object behind a reference. -/
def hread (h : Heap) (r : Ref) : PyDict :=
  (h[r]?).getD []

/-- Allocate a fresh dict object, returning the new heap and its
reference. -/
def halloc (h : Heap) (d : PyDict) : Heap × Ref :=
  (h ++ [d], h.length)

/-- Overwrite the dict object behind a reference. -/
def hwrite (h : Heap) (r : Ref) (d : PyDict) : Heap :=
  h.set r d

/-- One iteration of the reordering loop as heap operations:
`ordered_data[field] = export_data.pop(field)` mutates the two fresh
dicts and nothing else. -/
def heapReorderStep (export_data ordered_data : Ref) (h : Heap)
    (field : String) : Heap :=
  match dictGet (hread h export_data) field with
  | some v =>
      hwrite (hwrite h ordered_data (dictSet (hread h ordered_data) field v))
        export_data (dictPop (hread h export_data) field)
  | none => h

/-- The dict-building statements of `export_dashboard_to_json` run on the
object heap: the comprehension allocates `export_data` as a fresh object
built by reading `dashboard`, `ordered_data` starts empty, the loop pops
from `export_data` into `ordered_data`, and the final update folds the
leftovers in. Returns the final heap and the reference the local name
`export_data` is rebound to. -/
def normalizeSteps (h : Heap) (dashboard : Ref) : Heap × Ref :=
  let p1 := halloc h (buildExportData (hread h dashboard))
  let export_data := p1.2
  let p2 := halloc p1.1 []
  let ordered_data := p2.2
  let h3 := field_order.foldl (heapReorderStep export_data ordered_data) p2.1
  let h4 := hwrite h3 ordered_data
    (dictUpdate (hread h3 ordered_data) (hread h3 export_data))
  (h4, ordered_data)

/-!
Lemmas about the association-list dict operations.
-/

theorem dictGet_eq_none_iff (d : PyDict) (k : String) :
    dictGet d k = none ↔ k ∉ dictKeys d := by
  induction d with
  | nil => simp [dictGet, dictKeys]
  | cons kv rest ih =>
      obtain ⟨a, b⟩ := kv
      by_cases hk : a = k
      · subst hk
        simp [dictGet, dictKeys]
      · simp only [dictGet, if_neg hk, ih, dictKeys, List.map_cons, List.mem_cons]
        constructor
        · intro hn hc
          rcases hc with hc | hc
          · exact hk hc.symm
          · exact hn hc
        · intro hn
          exact fun hc => hn (Or.inr hc)

theorem dictGet_isSome_iff (d : PyDict) (k : String) :
    (dictGet d k).isSome = true ↔ k ∈ dictKeys d := by
  rw [Option.isSome_iff_ne_none]
  constructor
  · intro hne
    by_contra hc
    exact hne ((dictGet_eq_none_iff d k).mpr hc)
  · intro hmem hc
    exact ((dictGet_eq_none_iff d k).mp hc) hmem

theorem dictGet_dictPop_ne (d : PyDict) (k k' : String) (h : k' ≠ k) :
    dictGet (dictPop d k) k' = dictGet d k' := by
  induction d with
  | nil => rfl
  | cons kv rest ih =>
      obtain ⟨a, b⟩ := kv
      by_cases ha : a = k
      · subst ha
        simp [dictPop, dictGet, h, Ne.symm h]
      · simp only [dictPop, if_neg ha, dictGet, ih]

theorem dictSet_of_not_mem (d : PyDict) (k : String) (v : Value)
    (h : k ∉ dictKeys d) : dictSet d k v = d ++ [(k, v)] := by
  induction d with
  | nil => rfl
  | cons kv rest ih =>
      obtain ⟨a, b⟩ := kv
      have hcons : k ∉ a :: dictKeys rest := h
      have ha : ¬ a = k := by
        intro hc
        exact hcons (by rw [← hc]; exact List.mem_cons_self a (dictKeys rest))
      have hrest : k ∉ dictKeys rest := fun hc => hcons (List.mem_cons_of_mem a hc)
      simp only [dictSet, if_neg ha, ih hrest, List.cons_append]

theorem dictPop_eq_eraseP (d : PyDict) (k : String)
    (h : (dictKeys d).Nodup) : dictPop d k = d.filter (fun kv => !(kv.1 = k : Bool)) := by
  induction d with
  | nil => rfl
  | cons kv rest ih =>
      obtain ⟨a, b⟩ := kv
      have hcons : (a :: dictKeys rest).Nodup := h
      have h1 : a ∉ dictKeys rest := (List.nodup_cons.mp hcons).1
      have h2 : (dictKeys rest).Nodup := (List.nodup_cons.mp hcons).2
      by_cases ha : a = k
      · subst ha
        have hself : rest.filter (fun kv => !(kv.1 = a : Bool)) = rest := by
          apply List.filter_eq_self.mpr
          intro kv hkv
          have hmem : kv.1 ∈ dictKeys rest := List.mem_map_of_mem Prod.fst hkv
          have hne : ¬ kv.1 = a := fun hc => h1 (hc ▸ hmem)
          simp [hne]
        simp [dictPop, List.filter_cons, hself]
      · simp [dictPop, ha, List.filter_cons, ih h2]

theorem dictKeys_filter (d : PyDict) (p : String → Bool) :
    dictKeys (d.filter (fun kv => p kv.1)) = (dictKeys d).filter p := by
  rw [dictKeys, dictKeys, List.filter_map]
  rfl

theorem dictKeys_append (d₁ d₂ : PyDict) :
    dictKeys (d₁ ++ d₂) = dictKeys d₁ ++ dictKeys d₂ := by
  simp [dictKeys]

theorem nodup_dictKeys_filter (d : PyDict) (p : (String × Value) → Bool)
    (h : (dictKeys d).Nodup) : (dictKeys (d.filter p)).Nodup := by
  have hsub : List.Sublist (dictKeys (d.filter p)) (dictKeys d) :=
    (List.filter_sublist d).map Prod.fst
  exact h.sublist hsub

theorem dictUpdate_append_of_disjoint (other : PyDict) :
    ∀ d : PyDict, (dictKeys other).Nodup →
    (∀ k ∈ dictKeys other, k ∉ dictKeys d) →
    dictUpdate d other = d ++ other := by
  induction other with
  | nil => intro d _ _; simp [dictUpdate]
  | cons kv rest ih =>
      intro d hnd hdisj
      obtain ⟨k, v⟩ := kv
      have hcons : (k :: dictKeys rest).Nodup := hnd
      have hndk : k ∉ dictKeys rest := (List.nodup_cons.mp hcons).1
      have hndr : (dictKeys rest).Nodup := (List.nodup_cons.mp hcons).2
      have hk : k ∉ dictKeys d :=
        hdisj k (List.mem_cons_self k (dictKeys rest))
      have step : dictUpdate d ((k, v) :: rest) = dictUpdate (d ++ [(k, v)]) rest := by
        show List.foldl _ (dictSet d k v) rest = _
        rw [dictSet_of_not_mem d k v hk]
        rfl
      rw [step, ih (d ++ [(k, v)]) hndr]
      · rw [List.append_assoc]
        rfl
      · intro k' hk'
        rw [dictKeys_append]
        intro hc
        rcases List.mem_append.mp hc with hc | hc
        · exact hdisj k' (List.mem_cons_of_mem k hk') hc
        · have : k' = k := by
            have : dictKeys [(k, v)] = [k] := rfl
            rw [this] at hc
            exact List.mem_singleton.mp hc
          exact hndk (this ▸ hk')

/-!
The closed form of the reordering loop and of the normalizer.
-/

theorem reorder_foldl_spec :
    ∀ (fs : List String) (od ed : PyDict), fs.Nodup → (dictKeys ed).Nodup →
    (∀ f ∈ fs, f ∉ dictKeys od) →
    fs.foldl reorderStep (od, ed) =
      (od ++ fs.filterMap (fun f => (dictGet ed f).map (fun v => (f, v))),
       ed.filter (fun kv => !fs.contains kv.1)) := by
  intro fs
  induction fs with
  | nil =>
      intro od ed _ _ _
      simp
  | cons f fs ih =>
      intro od ed hfs hed hod
      have hfs1 : f ∉ fs := (List.nodup_cons.mp hfs).1
      have hfs2 : fs.Nodup := (List.nodup_cons.mp hfs).2
      simp only [List.foldl_cons]
      cases hget : dictGet ed f with
      | none =>
          have hstep : reorderStep (od, ed) f = (od, ed) := by
            simp [reorderStep, hget]
          rw [hstep, ih od ed hfs2 hed (fun g hg => hod g (List.mem_cons_of_mem f hg))]
          have hfk : f ∉ dictKeys ed := (dictGet_eq_none_iff ed f).mp hget
          simp only [Prod.mk.injEq]
          constructor
          · simp [List.filterMap_cons, hget]
          · apply List.filter_congr
            intro kv hkv
            have hne : ¬ kv.1 = f := by
              intro hc
              exact hfk (hc ▸ List.mem_map_of_mem Prod.fst hkv)
            simp [List.contains_cons, hne, fun hc : f = kv.1 => hne hc.symm]
      | some v =>
          have hstep : reorderStep (od, ed) f = (dictSet od f v, dictPop ed f) := by
            simp [reorderStep, hget]
          rw [hstep, dictSet_of_not_mem od f v (hod f (List.mem_cons_self f fs)),
            dictPop_eq_eraseP ed f hed]
          have hed' : (dictKeys (ed.filter (fun kv => !(kv.1 = f : Bool)))).Nodup :=
            nodup_dictKeys_filter ed _ hed
          have hod' : ∀ g ∈ fs, g ∉ dictKeys (od ++ [(f, v)]) := by
            intro g hg
            rw [dictKeys_append]
            intro hc
            rcases List.mem_append.mp hc with hc | hc
            · exact hod g (List.mem_cons_of_mem f hg) hc
            · have : g = f := by
                have hone : dictKeys [(f, v)] = [f] := rfl
                rw [hone] at hc
                exact List.mem_singleton.mp hc
              exact hfs1 (this ▸ hg)
          rw [ih (od ++ [(f, v)]) (ed.filter (fun kv => !(kv.1 = f : Bool))) hfs2 hed' hod']
          simp only [Prod.mk.injEq]
          constructor
          · rw [List.append_assoc]
            congr 1
            simp only [List.filterMap_cons, hget, Option.map_some]
            show (f, v) :: _ = (f, v) :: _
            congr 1
            apply List.filterMap_congr
            intro g hg
            have hgf : g ≠ f := fun hc => hfs1 (hc ▸ hg)
            rw [← dictPop_eq_eraseP ed f hed, dictGet_dictPop_ne ed f g hgf]
          · rw [List.filter_filter]
            apply List.filter_congr
            intro kv _
            by_cases hkf : kv.1 = f
            · simp [hkf, List.contains_cons]
            · simp [List.contains_cons, hkf, fun hc : f = kv.1 => hkf hc.symm]

theorem dictKeys_filterMap_get (fs : List String) (ed : PyDict) :
    dictKeys (fs.filterMap (fun f => (dictGet ed f).map (fun v => (f, v)))) =
      fs.filter (fun f => (dictGet ed f).isSome) := by
  induction fs with
  | nil => rfl
  | cons f fs ih =>
      rw [List.filterMap_cons, List.filter_cons]
      cases hget : dictGet ed f with
      | none => simpa [hget] using ih
      | some v =>
          have hcons : dictKeys ((f, v) ::
              fs.filterMap (fun g => (dictGet ed g).map (fun w => (g, w)))) =
              f :: dictKeys (fs.filterMap (fun g => (dictGet ed g).map (fun w => (g, w)))) :=
            rfl
          simp [hget, hcons, ih]

theorem normalize_eq (d : PyDict) (h : (dictKeys d).Nodup) :
    normalize d =
      field_order.filterMap
        (fun f => (dictGet (buildExportData d) f).map (fun v => (f, v))) ++
      (buildExportData d).filter (fun kv => !field_order.contains kv.1) := by
  have hedk : (dictKeys (buildExportData d)).Nodup :=
    nodup_dictKeys_filter d _ h
  have hfo : field_order.Nodup := by decide
  have hspec := reorder_foldl_spec field_order [] (buildExportData d) hfo hedk
    (by intro f _; simp [dictKeys])
  have hspec2 : field_order.foldl reorderStep ([], buildExportData d) =
      (field_order.filterMap
        (fun f => (dictGet (buildExportData d) f).map (fun v => (f, v))),
       (buildExportData d).filter (fun kv => !field_order.contains kv.1)) := by
    rw [hspec, List.nil_append]
  have hnorm : normalize d =
      dictUpdate (field_order.foldl reorderStep ([], buildExportData d)).1
        (field_order.foldl reorderStep ([], buildExportData d)).2 := rfl
  rw [hnorm, hspec2]
  apply dictUpdate_append_of_disjoint
  · exact nodup_dictKeys_filter _ _ hedk
  · intro k hk
    have hk1 : k ∈ (dictKeys (buildExportData d)).filter
        (fun x => !field_order.contains x) := by
      rw [← dictKeys_filter]
      exact hk
    rw [List.mem_filter] at hk1
    have hknot : k ∉ field_order := by
      have := hk1.2
      simp only [Bool.not_eq_true'] at this
      intro hc
      simp [List.contains, hc] at this
    intro hc
    apply hknot
    rw [dictKeys_filterMap_get] at hc
    exact (List.mem_filter.mp hc).1

theorem mem_dictKeys_buildExportData (d : PyDict) (k : String) :
    k ∈ dictKeys (buildExportData d) ↔ k ∈ dictKeys d ∧ k ∉ exclude_fields := by
  have hfil := dictKeys_filter d (fun s => !exclude_fields.contains s)
  rw [show dictKeys (buildExportData d) =
    (dictKeys d).filter (fun s => !exclude_fields.contains s) from hfil]
  rw [List.mem_filter]
  simp [List.contains]

/-!
Claim theorems about the normalizer.
-/

/-- C1: for every dashboard record `d` (with the distinct keys every
Python dict has), the key set of the normalized export is exactly the key
set of `d` minus the exclusion set: no excluded key appears, every
non-excluded key of `d` appears, and no key absent from `d` is
invented. -/
theorem normalize_key_set (d : PyDict) (h : (dictKeys d).Nodup) (k : String) :
    k ∈ dictKeys (normalize d) ↔ k ∈ dictKeys d ∧ k ∉ exclude_fields := by
  have hrem := dictKeys_filter (buildExportData d) (fun s => !field_order.contains s)
  rw [normalize_eq d h, dictKeys_append, List.mem_append, dictKeys_filterMap_get,
    hrem, List.mem_filter, List.mem_filter, dictGet_isSome_iff,
    mem_dictKeys_buildExportData]
  by_cases hkf : k ∈ field_order <;> simp [hkf, List.contains]

/-- Closed-form witness for the C1 theorem at a concrete dashboard and
key. -/
theorem normalize_key_set_witness :
    (dictKeys [("id", Value.vint 7), ("name", Value.vstr "A"),
      ("enabled", Value.vbool true)]).Nodup ∧
    ("id" ∈ dictKeys (normalize [("id", Value.vint 7), ("name", Value.vstr "A"),
      ("enabled", Value.vbool true)]) ↔
      "id" ∈ dictKeys [("id", Value.vint 7), ("name", Value.vstr "A"),
        ("enabled", Value.vbool true)] ∧ "id" ∉ exclude_fields) :=
  ⟨by decide,
   normalize_key_set [("id", Value.vint 7), ("name", Value.vstr "A"),
     ("enabled", Value.vbool true)] (by decide) "id"⟩

/-- C2: the key order of the normalized export is the preferred sequence
restricted to the keys present in `d`, followed by the remaining
non-excluded keys of `d` in their original relative order; in particular
when `d` contains both the enabled and the labels field, enabled precedes
labels in the output. -/
theorem normalize_key_order (d : PyDict) (h : (dictKeys d).Nodup) :
    dictKeys (normalize d) =
      field_order.filter (fun f => f ∈ dictKeys d) ++
        (dictKeys d).filter (fun k => k ∉ exclude_fields ∧ k ∉ field_order) ∧
    ("enabled" ∈ dictKeys d → "labels" ∈ dictKeys d →
      (dictKeys (normalize d)).indexOf "enabled" <
        (dictKeys (normalize d)).indexOf "labels") := by
  have hrem := dictKeys_filter (buildExportData d) (fun s => !field_order.contains s)
  have hexk := dictKeys_filter d (fun s => !exclude_fields.contains s)
  have hmain : dictKeys (normalize d) =
      field_order.filter (fun f => f ∈ dictKeys d) ++
        (dictKeys d).filter (fun k => k ∉ exclude_fields ∧ k ∉ field_order) := by
    rw [normalize_eq d h, dictKeys_append, dictKeys_filterMap_get, hrem]
    congr 1
    · apply List.filter_congr
      intro f hf
      have hnotex : f ∉ exclude_fields := by
        have hall : ∀ g ∈ field_order, g ∉ exclude_fields := by decide
        exact hall f hf
      have hiff : (dictGet (buildExportData d) f).isSome = true ↔ f ∈ dictKeys d := by
        rw [dictGet_isSome_iff, mem_dictKeys_buildExportData]
        exact ⟨fun hx => hx.1, fun hx => ⟨hx, hnotex⟩⟩
      by_cases hmem : f ∈ dictKeys d
      · simp [hmem, hiff.mpr hmem]
      · have hx : (dictGet (buildExportData d) f).isSome = false := by
          rw [Bool.eq_false_iff]
          intro hc
          exact hmem (hiff.mp hc)
        simp [hmem, hx]
    · rw [show dictKeys (buildExportData d) =
        (dictKeys d).filter (fun s => !exclude_fields.contains s) from hexk,
        List.filter_filter]
      apply List.filter_congr
      intro k _
      by_cases h1 : k ∈ exclude_fields <;> by_cases h2 : k ∈ field_order <;>
        simp [h1, h2, List.contains]
  refine ⟨hmain, ?_⟩
  intro hen hla
  have hL : field_order.filter (fun f => f ∈ dictKeys d) =
      "enabled" :: (List.filter (fun f => decide (f ∈ dictKeys d))
        ["permissions", "queries", "name", "slug", "sections", "visible",
         "controls", "description", "labels"]) := by
    rw [show field_order = "enabled" ::
      ["permissions", "queries", "name", "slug", "sections", "visible",
       "controls", "description", "labels"] from rfl, List.filter_cons]
    simp [hen]
  rw [hmain, hL, List.cons_append, List.indexOf_cons_self,
    List.indexOf_cons_ne _ (by decide : ("enabled" : String) ≠ "labels")]
  exact Nat.succ_pos _

/-- Closed-form witness for the C2 theorem at a concrete dashboard. -/
theorem normalize_key_order_witness :
    (dictKeys [("labels", Value.varr []), ("id", Value.vint 7),
      ("enabled", Value.vbool true), ("extra", Value.vnull)]).Nodup ∧
    dictKeys (normalize [("labels", Value.varr []), ("id", Value.vint 7),
      ("enabled", Value.vbool true), ("extra", Value.vnull)]) =
      field_order.filter (fun f => f ∈ dictKeys [("labels", Value.varr []),
        ("id", Value.vint 7), ("enabled", Value.vbool true), ("extra", Value.vnull)]) ++
      (dictKeys [("labels", Value.varr []), ("id", Value.vint 7),
        ("enabled", Value.vbool true), ("extra", Value.vnull)]).filter
        (fun k => k ∉ exclude_fields ∧ k ∉ field_order) :=
  ⟨by decide,
   (normalize_key_order [("labels", Value.varr []), ("id", Value.vint 7),
     ("enabled", Value.vbool true), ("extra", Value.vnull)] (by decide)).1⟩

/-!
Closed forms of the two export loops.
-/

theorem selective_foldl (fetch : String → Option PyDict) (exp : PyDict → Bool) :
    ∀ (slugs : List String) (acc : RunAcc),
    slugs.foldl (selectiveStep fetch exp) acc =
      { success := acc.success + slugs.countP (fun s => ((fetch s).map exp).getD false),
        failure := acc.failure + slugs.countP (fun s => !((fetch s).map exp).getD false),
        fetched := acc.fetched ++ slugs,
        exportCalls := acc.exportCalls ++ slugs.filterMap fetch,
        written := acc.written ++ (slugs.filterMap fetch).filter exp } := by
  intro slugs
  induction slugs with
  | nil => intro acc; simp
  | cons s rest ih =>
      intro acc
      rw [List.foldl_cons, ih]
      cases hfetch : fetch s with
      | none =>
          simp [selectiveStep, hfetch, List.countP_cons, List.filterMap_cons,
            RunAcc.mk.injEq]
          omega
      | some dashboard =>
          cases hexp : exp dashboard with
          | true =>
              simp [selectiveStep, hfetch, hexp, List.countP_cons,
                List.filterMap_cons, List.filter_cons, RunAcc.mk.injEq]
              omega
          | false =>
              simp [selectiveStep, hfetch, hexp, List.countP_cons,
                List.filterMap_cons, List.filter_cons, RunAcc.mk.injEq]
              omega

theorem bulk_foldl (fetch : String → Option PyDict) (exp : PyDict → Bool) :
    ∀ (customs : List PyDict) (acc : RunAcc),
    customs.foldl (bulkStep fetch exp) acc =
      { success := acc.success +
          customs.countP (fun d => slugOk d && ((fetch (slugStr d)).map exp).getD false),
        failure := acc.failure +
          customs.countP (fun d => !(slugOk d && ((fetch (slugStr d)).map exp).getD false)),
        fetched := acc.fetched ++ (customs.filter slugOk).map slugStr,
        exportCalls := acc.exportCalls ++
          (customs.filter slugOk).filterMap (fun d => fetch (slugStr d)),
        written := acc.written ++
          ((customs.filter slugOk).filterMap (fun d => fetch (slugStr d))).filter exp } := by
  intro customs
  induction customs with
  | nil => intro acc; simp
  | cons d rest ih =>
      intro acc
      rw [List.foldl_cons, ih]
      cases hok : slugOk d with
      | false =>
          simp [bulkStep, hok, List.countP_cons, List.filter_cons, RunAcc.mk.injEq]
          omega
      | true =>
          cases hfetch : fetch (slugStr d) with
          | none =>
              simp [bulkStep, hok, hfetch, List.countP_cons, List.filter_cons,
                List.filterMap_cons, RunAcc.mk.injEq]
              omega
          | some full =>
              cases hexp : exp full with
              | true =>
                  simp [bulkStep, hok, hfetch, hexp, List.countP_cons,
                    List.filter_cons, List.filterMap_cons, RunAcc.mk.injEq]
                  omega
              | false =>
                  simp [bulkStep, hok, hfetch, hexp, List.countP_cons,
                    List.filter_cons, List.filterMap_cons, RunAcc.mk.injEq]
                  omega

/-- Fetch oracle of the three-slug example run: the second slug fails (a
simulated 404), the other two return a record carrying their slug. -/
def exFetch3 : String → Option PyDict := fun s =>
  if s = "beta" then none else some [("slug", Value.vstr s)]

/-- Export oracle that always succeeds. -/
def exExportOk : PyDict → Bool := fun _ => true

/-- C3: in selective export mode every slug of the sequence is processed
(fetch attempted) regardless of earlier failures, every successfully
fetched dashboard is handed to the exporter, the two counters count
exactly the per-slug outcomes, the exit status is non-zero iff the
failure counter is positive, and in the concrete three-slug run whose
second fetch fails exactly two files are written, one failure is counted
and the exit status is 1. -/
theorem selective_export_isolation (fetch : String → Option PyDict)
    (exp : PyDict → Bool) (slugs : List String) :
    (selectiveRun fetch exp slugs).fetched = slugs ∧
    (selectiveRun fetch exp slugs).exportCalls = slugs.filterMap fetch ∧
    (selectiveRun fetch exp slugs).written = (slugs.filterMap fetch).filter exp ∧
    (selectiveRun fetch exp slugs).success =
      slugs.countP (fun s => ((fetch s).map exp).getD false) ∧
    (selectiveRun fetch exp slugs).failure =
      slugs.countP (fun s => !((fetch s).map exp).getD false) ∧
    (selectiveModeExit fetch exp slugs ≠ 0 ↔
      0 < (selectiveRun fetch exp slugs).failure) ∧
    selectiveRun exFetch3 exExportOk ["alpha", "beta", "gamma"] =
      ⟨2, 1, ["alpha", "beta", "gamma"],
        [[("slug", Value.vstr "alpha")], [("slug", Value.vstr "gamma")]],
        [[("slug", Value.vstr "alpha")], [("slug", Value.vstr "gamma")]]⟩ ∧
    selectiveModeExit exFetch3 exExportOk ["alpha", "beta", "gamma"] = 1 := by
  have hrun := selective_foldl fetch exp slugs RunAcc.init
  rw [selectiveRun, hrun]
  refine ⟨by simp [RunAcc.init], by simp [RunAcc.init], by simp [RunAcc.init],
    by simp [RunAcc.init], by simp [RunAcc.init], ?_, rfl, rfl⟩
  rw [selectiveModeExit, selectiveRun, hrun]
  by_cases hf : 0 < slugs.countP (fun s => !((fetch s).map exp).getD false) <;>
    simp [RunAcc.init, hf]

/-- Fetch oracle for the bulk-mode examples: every slug resolves to a
full record. -/
def exFetchB : String → Option PyDict := fun s =>
  some [("slug", Value.vstr s), ("queries", Value.varr [])]

/-- The five list-endpoint summaries of the bulk example: the second and
fourth are system dashboards, the others are custom. -/
def exSummaries5 : List PyDict :=
  [[("slug", Value.vstr "one")],
   [("slug", Value.vstr "two"), ("system", Value.vbool true)],
   [("slug", Value.vstr "three"), ("system", Value.vbool false)],
   [("system", Value.vbool true), ("slug", Value.vstr "four")],
   [("slug", Value.vstr "five"), ("system", Value.vint 0)]]

/-- C4: in bulk export mode the detail endpoint is queried for exactly
the summaries whose system field is falsy and whose slug is truthy (so
never for a truthy-system summary), the exporter receives exactly the
successfully fetched details of those, the counters count exactly the
per-summary outcomes over the custom summaries (a custom summary with a
falsy or missing slug counts as a failure with no fetch), in the
five-summary example with two system dashboards the detail fetch is
attempted for exactly the other three, and a slugless custom summary
yields one failure and no fetch. -/
theorem bulk_mode_filter (fetch : String → Option PyDict) (exp : PyDict → Bool)
    (summaries : List PyDict) :
    (bulkRun fetch exp summaries).fetched =
      ((summaries.filter isCustom).filter slugOk).map slugStr ∧
    (bulkRun fetch exp summaries).exportCalls =
      ((summaries.filter isCustom).filter slugOk).filterMap
        (fun d => fetch (slugStr d)) ∧
    (bulkRun fetch exp summaries).success =
      (summaries.filter isCustom).countP
        (fun d => slugOk d && ((fetch (slugStr d)).map exp).getD false) ∧
    (bulkRun fetch exp summaries).failure =
      (summaries.filter isCustom).countP
        (fun d => !(slugOk d && ((fetch (slugStr d)).map exp).getD false)) ∧
    (bulkRun exFetchB exExportOk exSummaries5).fetched = ["one", "three", "five"] ∧
    (bulkRun exFetchB exExportOk exSummaries5).success = 3 ∧
    (bulkRun exFetchB exExportOk exSummaries5).failure = 0 ∧
    bulkRun exFetchB exExportOk [[("name", Value.vstr "noslug")]] =
      ⟨0, 1, [], [], []⟩ := by
  have hrun := bulk_foldl fetch exp (summaries.filter isCustom) RunAcc.init
  rw [bulkRun, hrun]
  exact ⟨by simp [RunAcc.init], by simp [RunAcc.init], by simp [RunAcc.init],
    by simp [RunAcc.init], rfl, rfl, rfl, rfl⟩

/-!
Claim theorems about the transport client and list mode.
-/

/-- The five-summary fixture named A,B,C,D,E. -/
def exDashA : PyDict := [("name", Value.vstr "A"), ("slug", Value.vstr "a")]

/-- Summary named B of the fixture. -/
def exDashB : PyDict := [("name", Value.vstr "B"), ("slug", Value.vstr "b")]

/-- Summary named C of the fixture. -/
def exDashC : PyDict := [("name", Value.vstr "C"), ("slug", Value.vstr "c")]

/-- Summary named D of the fixture. -/
def exDashD : PyDict := [("name", Value.vstr "D"), ("slug", Value.vstr "d")]

/-- Summary named E of the fixture. -/
def exDashE : PyDict := [("name", Value.vstr "E"), ("slug", Value.vstr "e")]

/-- The fixture list of five summaries. -/
def exSummariesAE : List PyDict := [exDashA, exDashB, exDashC, exDashD, exDashE]

/-- C5 counterexample: with a provided but EMPTY name-filter collection,
`fetch_dashboards` returns the full unfiltered list, while membership in
the empty filter set selects no summary — so the output differs from the
one the claim predicts for this filter set. -/
theorem fetch_name_filter_empty_cex :
    fetch_dashboards (.reply 200 (.jsonList [[("name", Value.vstr "A")]]))
        (some []) = some [[("name", Value.vstr "A")]] ∧
    List.filter (nameMatches []) [[("name", Value.vstr "A")]] = [] ∧
    some [[("name", Value.vstr "A")]] ≠ (some [] : Option (List PyDict)) := by
  refine ⟨rfl, rfl, ?_⟩
  simp

/-- C5 (amended): for every successful list response and every provided
NON-EMPTY name filter, the result is exactly the summaries whose name is
a string equal to a member of the filter (exact match, no case folding),
in their original relative order; over the five-summary fixture named
A..E with filter [A, B], exactly the A and B summaries are returned in
their original relative order. -/
theorem fetch_dashboards_name_filter (status : Nat) (data : List PyDict)
    (names : List String) (hst : status < 400) (hne : names ≠ []) :
    fetch_dashboards (.reply status (.jsonList data)) (some names) =
      some (data.filter (nameMatches names)) ∧
    (∀ d, nameMatches names d = true ↔
      ∃ s, dictGet d "name" = some (Value.vstr s) ∧ s ∈ names) ∧
    fetch_dashboards (.reply 200 (.jsonList exSummariesAE)) (some ["A", "B"]) =
      some [exDashA, exDashB] := by
  have h1 : ¬ status = 401 := by omega
  have h2 : ¬ status = 403 := by omega
  have h3 : ¬ (400 ≤ status ∧ status < 600) := by omega
  have h4 : names.isEmpty = false := by
    cases names with
    | nil => exact absurd rfl hne
    | cons x xs => rfl
  refine ⟨by simp [fetch_dashboards, h1, h2, h3, h4], ?_, rfl⟩
  intro d
  cases hget : dictGet d "name" with
  | none => simp [nameMatches, hget]
  | some v =>
      cases v <;> simp [nameMatches, hget, List.contains]

/-- Closed-form witness for the amended C5 theorem. -/
theorem fetch_dashboards_name_filter_witness :
    200 < 400 ∧ (["A"] : List String) ≠ [] ∧
    fetch_dashboards (.reply 200 (.jsonList [[("name", Value.vstr "A")],
      [("name", Value.vstr "B")]])) (some ["A"]) =
        some [[("name", Value.vstr "A")]] :=
  ⟨by decide, by decide, by
    rw [(fetch_dashboards_name_filter 200
      [[("name", Value.vstr "A")], [("name", Value.vstr "B")]] ["A"]
      (by decide) (by decide)).1]
    rfl⟩

/-- C9: a provided-but-empty name filter applies no filtering at all:
the call behaves exactly like the unfiltered call on every response, and
in particular a successful list fetch returns the full list rather than
the empty list that membership in an empty set would produce. -/
theorem empty_name_filter_no_filtering (resp : ApiResponse) :
    fetch_dashboards resp (some []) = fetch_dashboards resp none ∧
    (∀ status data, status < 400 →
      fetch_dashboards (.reply status (.jsonList data)) (some []) = some data) := by
  constructor
  · cases resp with
    | netFail => rfl
    | reply status body => cases body <;> simp [fetch_dashboards]
  · intro status data hst
    have h1 : ¬ status = 401 := by omega
    have h2 : ¬ status = 403 := by omega
    have h3 : ¬ (400 ≤ status ∧ status < 600) := by omega
    simp [fetch_dashboards, h1, h2, h3]

/-- Closed-form witness for the C9 theorem. -/
theorem empty_name_filter_no_filtering_witness :
    200 < 400 ∧
    fetch_dashboards (.reply 200 (.jsonList [[("x", Value.vnull)]])) (some []) =
      some [[("x", Value.vnull)]] :=
  ⟨by decide,
   (empty_name_filter_no_filtering (.reply 200 (.jsonList [[("x", Value.vnull)]]))).2
     200 [[("x", Value.vnull)]] (by decide)⟩

/-- C6: an empty result is a success value distinct from the failure
value: a successful reply with zero dashboards yields the empty list (and
list mode exits 0), a successful reply where the filter matches nothing
also yields the empty list, while a transport failure or an undecodable
body makes the fetch fail and list mode exit 1. -/
theorem empty_vs_failure :
    (∀ status, status < 400 →
      fetch_dashboards (.reply status (.jsonList [])) none = some [] ∧
      listModeExit (.reply status (.jsonList [])) = 0) ∧
    (∀ status names data, status < 400 → names ≠ [] →
      (∀ d ∈ data, nameMatches names d = false) →
      fetch_dashboards (.reply status (.jsonList data)) (some names) = some []) ∧
    (some ([] : List PyDict) ≠ (none : Option (List PyDict))) ∧
    listModeExit .netFail = 1 ∧
    (∀ status, listModeExit (.reply status .undecodable) = 1) := by
  refine ⟨?_, ?_, by simp, rfl, ?_⟩
  · intro status hst
    have h1 : ¬ status = 401 := by omega
    have h2 : ¬ status = 403 := by omega
    have h3 : ¬ (400 ≤ status ∧ status < 600) := by omega
    constructor
    · simp [fetch_dashboards, h1, h2, h3]
    · simp [listModeExit, fetch_dashboards, h1, h2, h3]
  · intro status names data hst hne hnone
    have h1 : ¬ status = 401 := by omega
    have h2 : ¬ status = 403 := by omega
    have h3 : ¬ (400 ≤ status ∧ status < 600) := by omega
    have h4 : names.isEmpty = false := by
      cases names with
      | nil => exact absurd rfl hne
      | cons x xs => rfl
    have hfil : data.filter (nameMatches names) = [] := by
      rw [List.filter_eq_nil_iff]
      intro d hd
      simp [hnone d hd]
    simp [fetch_dashboards, h1, h2, h3, h4, hfil]
  · intro status
    by_cases h1 : status = 401
    · simp [listModeExit, fetch_dashboards, h1]
    · by_cases h2 : status = 403
      · simp [listModeExit, fetch_dashboards, h1, h2]
      · by_cases h3 : 400 ≤ status ∧ status < 600 <;>
          simp [listModeExit, fetch_dashboards, h1, h2, h3]

/-- Closed-form witness for the C6 theorem. -/
theorem empty_vs_failure_witness :
    200 < 400 ∧
    listModeExit (.reply 200 (.jsonList [])) = 0 ∧
    fetch_dashboards (.reply 200 (.jsonList [[("name", Value.vstr "Z")]]))
      (some ["A"]) = some [] :=
  ⟨by decide,
   (empty_vs_failure.1 200 (by decide)).2,
   empty_vs_failure.2.1 200 ["A"] [[("name", Value.vstr "Z")]]
     (by decide) (by decide) (by decide)⟩

/-!
Claim theorems about the exporter.
-/

/-- C7: the output file name is the instant formatted as
YYYY-MM-DDTHH-MM-SS, a dash, the slug, and the `.json` suffix; an absent
slug key is replaced by the literal string `unknown`; for example a
record with slug `firewall-stats` at the fixed instant
2025-03-07 09:05:30 is exported as
`2025-03-07T09-05-30-firewall-stats.json`. -/
theorem export_filename_format (dashboard : PyDict) (now : Timestamp) :
    (dictGet dashboard "slug" = none →
      exportFilename dashboard now =
        strftimeExport now ++ "-" ++ "unknown" ++ ".json") ∧
    (∀ s, dictGet dashboard "slug" = some (Value.vstr s) →
      exportFilename dashboard now = strftimeExport now ++ "-" ++ s ++ ".json") ∧
    strftimeExport ⟨2025, 3, 7, 9, 5, 30⟩ = "2025-03-07T09-05-30" ∧
    exportFilename [("slug", Value.vstr "firewall-stats")] ⟨2025, 3, 7, 9, 5, 30⟩ =
      "2025-03-07T09-05-30-firewall-stats.json" := by
  refine ⟨?_, ?_, rfl, rfl⟩
  · intro hget
    show strftimeExport now ++ "-" ++
      valueFStr (dictGetD dashboard "slug" (.vstr "unknown")) ++ ".json" = _
    rw [dictGetD, hget]
    rfl
  · intro s hget
    show strftimeExport now ++ "-" ++
      valueFStr (dictGetD dashboard "slug" (.vstr "unknown")) ++ ".json" = _
    rw [dictGetD, hget]
    rfl

/-- Closed-form witness for the C7 theorem. -/
theorem export_filename_format_witness :
    dictGet [("name", Value.vstr "X")] "slug" = none ∧
    exportFilename [("name", Value.vstr "X")] ⟨2025, 3, 7, 9, 5, 30⟩ =
      strftimeExport ⟨2025, 3, 7, 9, 5, 30⟩ ++ "-" ++ "unknown" ++ ".json" ∧
    exportFilename [("slug", Value.vstr "firewall-stats")] ⟨2025, 3, 7, 9, 5, 30⟩ =
      strftimeExport ⟨2025, 3, 7, 9, 5, 30⟩ ++ "-" ++ "firewall-stats" ++ ".json" :=
  ⟨rfl,
   (export_filename_format [("name", Value.vstr "X")] ⟨2025, 3, 7, 9, 5, 30⟩).1 rfl,
   (export_filename_format [("slug", Value.vstr "firewall-stats")]
     ⟨2025, 3, 7, 9, 5, 30⟩).2.1 "firewall-stats" rfl⟩

theorem fsLookup_fsWrite_self (fs : FileSystem) (path : String) (c : PyDict) :
    fsLookup (fsWrite fs path c) path = some c := by
  induction fs with
  | nil => simp [fsWrite, fsLookup]
  | cons pc rest ih =>
      obtain ⟨p, c'⟩ := pc
      by_cases hp : p = path
      · simp [fsWrite, hp, fsLookup]
      · simp [fsWrite, hp, fsLookup, ih]

theorem fsLookup_fsWrite_ne (fs : FileSystem) (path p : String) (c : PyDict)
    (h : p ≠ path) : fsLookup (fsWrite fs path c) p = fsLookup fs p := by
  have hpn : ¬ path = p := fun hc => h hc.symm
  induction fs with
  | nil =>
      show (if path = p then some c else fsLookup [] p) = fsLookup [] p
      rw [if_neg hpn]
  | cons pc rest ih =>
      obtain ⟨q, c'⟩ := pc
      by_cases hq : q = path
      · subst hq
        simp only [fsWrite, if_pos rfl, fsLookup, if_neg hpn]
      · simp only [fsWrite, if_neg hq, fsLookup, ih]

theorem fsWrite_fresh (fs : FileSystem) (path : String) (c : PyDict)
    (h : fsLookup fs path = none) : fsWrite fs path c = fs ++ [(path, c)] := by
  induction fs with
  | nil => rfl
  | cons pc rest ih =>
      obtain ⟨q, c'⟩ := pc
      by_cases hq : q = path
      · simp [fsLookup, hq] at h
      · simp only [fsLookup, if_neg hq] at h
        simp [fsWrite, hq, ih h]

/-- Helper fixture for the C8 counterexample: the dashboard exported
twice at the same instant. -/
def cexDash : PyDict := [("slug", Value.vstr "a")]

/-- Fixed instant of the C8 counterexample. -/
def cexTime : Timestamp := ⟨2025, 1, 1, 0, 0, 0⟩

/-- The path the C8 counterexample export resolves to. -/
def cexPath : String := osPathJoin "." (exportFilename cexDash cexTime)

/-- Filesystem that already holds a file at that path. -/
def cexFs : FileSystem := [(cexPath, [("name", Value.vstr "old")])]

/-- C8 counterexample: a successful export into a directory that already
contains a file with the same timestamp-slug name creates no new file and
replaces the existing content — the source opens the path in write mode,
so a colliding name (same slug within the same second) is overwritten. -/
theorem export_overwrite_cex :
    (export_dashboard_to_json cexFs cexDash "." cexTime).2 = true ∧
    (export_dashboard_to_json cexFs cexDash "." cexTime).1.length = cexFs.length ∧
    fsLookup cexFs cexPath = some [("name", Value.vstr "old")] ∧
    fsLookup (export_dashboard_to_json cexFs cexDash "." cexTime).1 cexPath =
      some [("slug", Value.vstr "a")] ∧
    ([("slug", Value.vstr "a")] : PyDict) ≠ [("name", Value.vstr "old")] := by
  refine ⟨rfl, rfl, rfl, rfl, ?_⟩
  intro hc
  have h1 := congrArg (fun l : PyDict => (l.headD ("z", Value.vnull)).1) hc
  simp only [List.headD_cons] at h1
  exact absurd h1 (by decide)

/-- C8 (amended): every successful export call writes exactly the one
path named by the timestamp-slug filename: when no file of that name
exists, exactly one new file is created (the filesystem grows by that
single entry) and no other file is created or modified; a pre-existing
file at the same path is overwritten rather than preserved. -/
theorem export_writes_single_path (fs : FileSystem) (dashboard : PyDict)
    (output_dir : String) (now : Timestamp) :
    (export_dashboard_to_json fs dashboard output_dir now).2 = true ∧
    (∀ p, p ≠ osPathJoin output_dir (exportFilename dashboard now) →
      fsLookup (export_dashboard_to_json fs dashboard output_dir now).1 p =
        fsLookup fs p) ∧
    (fsLookup fs (osPathJoin output_dir (exportFilename dashboard now)) = none →
      (export_dashboard_to_json fs dashboard output_dir now).1 =
        fs ++ [(osPathJoin output_dir (exportFilename dashboard now),
          normalize dashboard)]) ∧
    fsLookup (export_dashboard_to_json fs dashboard output_dir now).1
      (osPathJoin output_dir (exportFilename dashboard now)) =
        some (normalize dashboard) := by
  refine ⟨rfl, ?_, ?_, ?_⟩
  · intro p hp
    exact fsLookup_fsWrite_ne fs _ p _ hp
  · intro hfresh
    exact fsWrite_fresh fs _ _ hfresh
  · exact fsLookup_fsWrite_self fs _ _

/-- Closed-form witness for the amended C8 theorem. -/
theorem export_writes_single_path_witness :
    fsLookup [] (osPathJoin "." (exportFilename cexDash cexTime)) = none ∧
    (export_dashboard_to_json [] cexDash "." cexTime).1 =
      [] ++ [(osPathJoin "." (exportFilename cexDash cexTime), normalize cexDash)] ∧
    ("other" : String) ≠ osPathJoin "." (exportFilename cexDash cexTime) ∧
    fsLookup (export_dashboard_to_json [] cexDash "." cexTime).1 "other" =
      fsLookup [] "other" :=
  ⟨rfl,
   (export_writes_single_path [] cexDash "." cexTime).2.2.1 rfl,
   by decide,
   (export_writes_single_path [] cexDash "." cexTime).2.1 "other" (by decide)⟩

/-!
Heap lemmas and the non-mutation theorem for the exporter.
-/

theorem hread_concat (h : Heap) (d : PyDict) (r : Ref) (hr : r < h.length) :
    hread (h ++ [d]) r = hread h r := by
  rw [hread, hread, List.getElem?_append_left hr]

theorem hread_concat_self (h : Heap) (d : PyDict) :
    hread (h ++ [d]) h.length = d := by
  rw [hread, List.getElem?_concat_length]
  rfl

theorem hread_hwrite_self (h : Heap) (r : Ref) (d : PyDict) (hr : r < h.length) :
    hread (hwrite h r d) r = d := by
  rw [hread, hwrite, List.getElem?_set_eq_of_lt d hr]
  rfl

theorem hread_hwrite_ne (h : Heap) (r r' : Ref) (d : PyDict) (hne : r ≠ r') :
    hread (hwrite h r' d) r = hread h r := by
  rw [hread, hwrite, hread, List.getElem?_set_ne (fun hc => hne hc.symm)]

theorem hwrite_length (h : Heap) (r : Ref) (d : PyDict) :
    (hwrite h r d).length = h.length := by
  simp [hwrite]

theorem heapReorder_foldl (a b : Ref) (hab : a ≠ b) :
    ∀ (fs : List String) (h : Heap), a < h.length → b < h.length →
    (fs.foldl (heapReorderStep a b) h).length = h.length ∧
    (∀ r, r ≠ a → r ≠ b → hread (fs.foldl (heapReorderStep a b) h) r = hread h r) ∧
    (hread (fs.foldl (heapReorderStep a b) h) b,
     hread (fs.foldl (heapReorderStep a b) h) a) =
      fs.foldl reorderStep (hread h b, hread h a) := by
  intro fs
  induction fs with
  | nil =>
      intro h ha hb
      exact ⟨rfl, fun _ _ _ => rfl, rfl⟩
  | cons f fs ih =>
      intro h ha hb
      rw [List.foldl_cons, List.foldl_cons]
      cases hget : dictGet (hread h a) f with
      | none =>
          have hstep : heapReorderStep a b h f = h := by
            simp [heapReorderStep, hget]
          have hstep2 : reorderStep (hread h b, hread h a) f = (hread h b, hread h a) := by
            simp [reorderStep, hget]
          rw [hstep, hstep2]
          exact ih h ha hb
      | some v =>
          have hstep : heapReorderStep a b h f =
              hwrite (hwrite h b (dictSet (hread h b) f v)) a
                (dictPop (hread h a) f) := by
            simp only [heapReorderStep, hget]
          have hstep2 : reorderStep (hread h b, hread h a) f =
              (dictSet (hread h b) f v, dictPop (hread h a) f) := by
            simp only [reorderStep, hget]
          rw [hstep, hstep2]
          set h2 := hwrite (hwrite h b (dictSet (hread h b) f v)) a
            (dictPop (hread h a) f) with hh2
          have hlen2 : h2.length = h.length := by
            rw [hh2, hwrite_length, hwrite_length]
          have ha2 : a < h2.length := by rw [hlen2]; exact ha
          have hb2 : b < h2.length := by rw [hlen2]; exact hb
          obtain ⟨hlen3, hpres3, hpair3⟩ := ih h2 ha2 hb2
          have hr2a : hread h2 a = dictPop (hread h a) f := by
            rw [hh2]
            apply hread_hwrite_self
            rw [hwrite_length]
            exact ha
          have hr2b : hread h2 b = dictSet (hread h b) f v := by
            rw [hh2, hread_hwrite_ne _ b a _ (fun hc => hab hc.symm)]
            exact hread_hwrite_self _ b _ hb
          refine ⟨by rw [hlen3, hlen2], ?_, ?_⟩
          · intro r hra hrb
            rw [hpres3 r hra hrb, hh2,
              hread_hwrite_ne _ r a _ hra, hread_hwrite_ne _ r b _ hrb]
          · rw [hpair3, hr2a, hr2b]

/-- C10: the dict-building statements of the exporter never mutate any
pre-existing dict object: after the run every reference that was valid
before it (the caller's dashboard record in particular) reads exactly as
before, and the freshly built object the local name is rebound to holds
exactly the pure normalization of the input record. -/
theorem export_no_input_mutation (h : Heap) (dashboard : Ref)
    (_hr : dashboard < h.length) :
    (∀ i, i < h.length → hread (normalizeSteps h dashboard).1 i = hread h i) ∧
    hread (normalizeSteps h dashboard).1 (normalizeSteps h dashboard).2 =
      normalize (hread h dashboard) := by
  set ed := buildExportData (hread h dashboard) with hed
  set a := h.length with hadef
  set b := (h ++ [ed]).length with hbdef
  set h2 := (h ++ [ed]) ++ [([] : PyDict)] with hh2
  set h3 := field_order.foldl (heapReorderStep a b) h2 with hh3
  have hns1 : (normalizeSteps h dashboard).1 =
      hwrite h3 b (dictUpdate (hread h3 b) (hread h3 a)) := by
    rw [hh3, hh2, hbdef, hadef, hed]
    simp only [normalizeSteps, halloc]
  have hns2 : (normalizeSteps h dashboard).2 = b := rfl
  have hb1 : b = h.length + 1 := by rw [hbdef]; simp
  have hab : a ≠ b := by rw [hadef, hb1]; omega
  have hlen2 : h2.length = h.length + 2 := by rw [hh2]; simp
  have ha2 : a < h2.length := by rw [hadef, hlen2]; omega
  have hb2 : b < h2.length := by rw [hb1, hlen2]; omega
  obtain ⟨hlen3, hpres3, hpair3⟩ := heapReorder_foldl a b hab field_order h2 ha2 hb2
  have hr2a : hread h2 a = ed := by
    rw [hh2, hadef, hread_concat (h ++ [ed]) _ _ (by simp)]
    exact hread_concat_self h ed
  have hr2b : hread h2 b = [] := by
    rw [hh2, hbdef]
    exact hread_concat_self (h ++ [ed]) []
  constructor
  · intro i hi
    have hib : i ≠ b := by rw [hb1]; omega
    have hia : i ≠ a := by rw [hadef]; omega
    have hlt : i < (h ++ [ed]).length := by simp; omega
    rw [hns1, hread_hwrite_ne _ i b _ hib, hpres3 i hia hib, hh2,
      hread_concat _ _ _ hlt]
    exact hread_concat h ed i hi
  · have hbl : b < h3.length := by rw [hlen3, hlen2, hb1]; omega
    rw [hns1, hns2, hread_hwrite_self _ b _ hbl]
    rw [hr2a, hr2b] at hpair3
    have hfst := congrArg Prod.fst hpair3
    have hsnd := congrArg Prod.snd hpair3
    simp only at hfst hsnd
    rw [hfst, hsnd]
    rfl

/-- Closed-form witness for the C10 theorem at a concrete heap holding
one dashboard record. -/
theorem export_no_input_mutation_witness :
    hread ((normalizeSteps [[("id", Value.vint 1), ("name", Value.vstr "A")]] 0).1) 0 =
      hread [[("id", Value.vint 1), ("name", Value.vstr "A")]] 0 ∧
    hread ((normalizeSteps [[("id", Value.vint 1), ("name", Value.vstr "A")]] 0).1)
      ((normalizeSteps [[("id", Value.vint 1), ("name", Value.vstr "A")]] 0).2) =
      normalize (hread [[("id", Value.vint 1), ("name", Value.vstr "A")]] 0) :=
  ⟨(export_no_input_mutation [[("id", Value.vint 1), ("name", Value.vstr "A")]] 0
      (by decide)).1 0 (by decide),
   (export_no_input_mutation [[("id", Value.vint 1), ("name", Value.vstr "A")]] 0
      (by decide)).2⟩

end DashboardExport
